import Mathlib

/-!
Verification of the catalog refresh-and-cache pipeline of `bot.py`:
`parse_data_file`, the cache-adoption step inside `fetch_data`, the retry
loops of `fetch_data` and `get_latest_commit`, the refresh cycle
`auto_update_data`, the start-up sequence `on_ready`, and the stock
classification used by the `stock` and `status` commands.

Strings are Lean `String`s; the Python string primitives the source uses
(`strip`, `split`, `upper`, `lower`, `startswith`, `endswith`, membership of
`"|"`) are implemented on the character list of the string, so every
definition evaluates by kernel reduction.
-/

namespace Luxury

/-- Python `str.strip()` on a character list: drop whitespace at both ends. -/
def pyStripChars (l : List Char) : List Char :=
  ((l.dropWhile Char.isWhitespace).reverse.dropWhile Char.isWhitespace).reverse

/-- Python `str.strip()`. -/
def pyStrip (s : String) : String := String.mk (pyStripChars s.data)

/-- Python `str.split(sep)` for a one-character separator, on character lists. -/
def splitOnCh (sep : Char) : List Char → List (List Char)
  | [] => [[]]
  | c :: rest =>
    match splitOnCh sep rest with
    | [] => [[]]
    | x :: xs => if c == sep then [] :: x :: xs else (c :: x) :: xs

/-- Python `line.split("|")`. -/
def pySplitPipe (s : String) : List String :=
  (splitOnCh '|' s.data).map String.mk

/-- Rejoin pieces with `'|'`; used to model Python `split("|", 1)`. -/
def joinPipe : List (List Char) → List Char
  | [] => []
  | [x] => x
  | x :: y :: rest => x ++ '|' :: joinPipe (y :: rest)

/-- Python `line.split("|", 1)`: split at the first separator only. -/
def pySplitPipe1 (s : String) : List String :=
  match splitOnCh '|' s.data with
  | [] => [s]
  | [x] => [String.mk x]
  | x :: rest => [String.mk x, String.mk (joinPipe rest)]

/-- Python `line.startswith(c)` for a one-character argument. -/
def startsWithCh (s : String) (c : Char) : Bool :=
  match s.data with
  | [] => false
  | d :: _ => d == c

/-- Python `line.endswith(c)` for a one-character argument. -/
def endsWithCh (s : String) (c : Char) : Bool :=
  match s.data.getLast? with
  | none => false
  | some d => d == c

/-- Python `"|" in line`. -/
def hasPipe (s : String) : Bool := s.data.any (fun c => c == '|')

/-- Python `str.upper()` (ASCII, as used on section names). -/
def pyUpper (s : String) : String := String.mk (s.data.map Char.toUpper)

/-- Python `str.lower()` (ASCII, as used on stock values). -/
def pyLower (s : String) : String := String.mk (s.data.map Char.toLower)

/-- Python `line[1:-1]`. -/
def innerSlice (s : String) : String := String.mk ((s.data.drop 1).dropLast)

/-- A catalog product record (`bot.py` lines 119-122). -/
structure Product where
  category : String
  name : String
  price : String
  desc : String
  stock : String
deriving Repr, DecidableEq

/-- A FAQ record (`bot.py` line 113). -/
structure FAQItem where
  question : String
  answer : String
deriving Repr, DecidableEq

/-- The category index: a Python `dict` in insertion order, as an association
list from category name to the products of that category. -/
abbrev Categories := List (String × List Product)

/-- The value built by `parse_data_file` and held by the cache
(`data_cache` together with `product_categories`). -/
structure Snapshot where
  products : List Product
  faq : List FAQItem
  categories : Categories
deriving Repr, DecidableEq

/-- `bot.py` lines 124-126: `categories[category].append(product)`, creating
the key on first occurrence; a Python dict preserves insertion order. -/
def addToCategories (cats : Categories) (c : String) (p : Product) : Categories :=
  match cats with
  | [] => [(c, [p])]
  | (k, ps) :: rest =>
    if k = c then (k, ps ++ [p]) :: rest else (k, ps) :: addToCategories rest c p

/-- The shape of one raw input line, before section-dependent handling:
blank-or-comment, section header, or a data line (trimmed). -/
inductive LineKind where
  | blank
  | header (s : String)
  | dataLine (line : String)
deriving Repr, DecidableEq

/-- `bot.py` lines 103-108: trim the line, skip blank and `#` lines, and
recognise `[...]` section headers (upper-cased inner text). -/
def lineKind (rawLine : String) : LineKind :=
  let line := pyStrip rawLine
  if line.data.isEmpty || startsWithCh line '#' then .blank
  else if startsWithCh line '[' && endsWithCh line ']' then
    .header (pyUpper (innerSlice line))
  else .dataLine line

/-- What `parse_data_file` does with one line. -/
inductive LineAction where
  | skip
  | setSection (s : String)
  | addFAQ (q a : String)
  | addProduct (p : Product)
deriving Repr, DecidableEq

/-- The decision taken by the loop body of `parse_data_file`
(`bot.py` lines 102-126) on one line, given the current section: under `FAQ`,
a line with a `|` is split at the first `|` into two trimmed fields; under
`PRODUCTS`, a line with a `|` is split at every `|` into trimmed fields and
accepted when at least five result, the first five becoming the record. -/
def classifyLine (sec : Option String) (rawLine : String) : LineAction :=
  match lineKind rawLine with
  | .blank => .skip
  | .header s => .setSection s
  | .dataLine line =>
    if sec == some "FAQ" && hasPipe line then
      match (pySplitPipe1 line).map pyStrip with
      | q :: a :: _ => .addFAQ q a
      | _ => .skip
    else if sec == some "PRODUCTS" && hasPipe line then
      match (pySplitPipe line).map pyStrip with
      | c :: n :: pr :: d :: st :: _ => .addProduct ⟨c, n, pr, d, st⟩
      | _ => .skip
    else .skip

/-- The loop state of `parse_data_file`. -/
structure ParseState where
  products : List Product
  faq : List FAQItem
  categories : Categories
  currentSection : Option String
deriving Repr, DecidableEq

/-- The loop body of `parse_data_file`. -/
def processLine (st : ParseState) (l : String) : ParseState :=
  match classifyLine st.currentSection l with
  | .skip => st
  | .setSection s => { st with currentSection := some s }
  | .addFAQ q a => { st with faq := st.faq ++ [⟨q, a⟩] }
  | .addProduct p =>
      { st with
        products := st.products ++ [p]
        categories := addToCategories st.categories p.category p }

/-- `content.strip().split("\n")` (`bot.py` line 98). -/
def toLines (content : String) : List String :=
  (splitOnCh '\n' (pyStrip content).data).map String.mk

/-- `parse_data_file` (`bot.py` lines 96-128). -/
def parse_data_file (content : String) : Snapshot :=
  let final := (toLines content).foldl processLine ⟨[], [], [], none⟩
  ⟨final.products, final.faq, final.categories⟩

/-- The cache contents at start-up: `data_cache` and `product_categories`
are initialised empty (`bot.py` lines 63-67). -/
def emptySnapshot : Snapshot := ⟨[], [], []⟩

/-- The adoption step inside `fetch_data` (`bot.py` lines 140-148): the
parsed candidate replaces the cache only when it has at least one product or
one FAQ item; the result pairs the cache afterwards with the adoption flag
(the value `fetch_data` returns on a 200 response). -/
def cacheReplace (cache cand : Snapshot) : Snapshot × Bool :=
  if cand.products.isEmpty && cand.faq.isEmpty then (cache, false) else (cand, true)

/-- The outcome of one HTTP attempt against the dataset endpoint: a response
with a status code and a text body, or a transport failure (an exception,
caught by the source). -/
inductive AttemptResult where
  | response (status : Nat) (body : String)
  | failure
deriving Repr, DecidableEq

/-- `true` when the attempt ends in a non-success status or a transport
failure. -/
def attemptFailed : AttemptResult → Bool
  | .response status _ => status != 200
  | .failure => true

/-- The retry loop of `fetch_data` (`bot.py` lines 133-156) over the listed
attempt outcomes: a 200 response is parsed and offered to the cache and the
loop stops there; anything else moves to the next attempt; exhausting the
attempts returns `false` and leaves the cache alone. -/
def fetch_data_run (cache : Snapshot) : List AttemptResult → Snapshot × Bool
  | [] => (cache, false)
  | .failure :: rest => fetch_data_run cache rest
  | .response status body :: rest =>
    if status == 200 then cacheReplace cache (parse_data_file body)
    else fetch_data_run cache rest

/-- `fetch_data(retries)` against an environment giving the outcome of each
attempt; the source default is `retries = 3`. -/
def fetch_data (cache : Snapshot) (env : Nat → AttemptResult) (retries : Nat) :
    Snapshot × Bool :=
  fetch_data_run cache ((List.range retries).map env)

/-- The outcome of one HTTP attempt against the revision endpoint: a response
with a status code and, when the body is valid JSON, the JSON object as a
string-valued association list (`none` models a body on which `res.json()`
raises), or a transport failure. -/
inductive RevAttempt where
  | response (status : Nat) (json : Option (List (String × String)))
  | failure
deriving Repr, DecidableEq

/-- `true` when the revision attempt ends in a non-success status, a raising
JSON decode, or a transport failure. -/
def revAttemptFailed : RevAttempt → Bool
  | .response status json => status != 200 || json.isNone
  | .failure => true

/-- The retry loop of `get_latest_commit` (`bot.py` lines 160-173): on a 200
response with decodable JSON the loop returns `res.json().get("sha")`
(so `none` when the field is missing); a raising `res.json()` is caught and
the loop retries; exhausting the attempts returns `none`. -/
def get_latest_commit_run : List RevAttempt → Option String
  | [] => none
  | .failure :: rest => get_latest_commit_run rest
  | .response status json :: rest =>
    if status == 200 then
      match json with
      | none => get_latest_commit_run rest
      | some obj => List.lookup "sha" obj
    else get_latest_commit_run rest

/-- `get_latest_commit(retries)` with the source default `retries = 3`. -/
def get_latest_commit (env : Nat → RevAttempt) (retries : Nat) : Option String :=
  get_latest_commit_run ((List.range retries).map env)

/-- The mutable bot state touched by the refresh pipeline: the cache and
`last_commit_hash`. -/
structure BotState where
  cache : Snapshot
  last_commit_hash : Option String
deriving Repr, DecidableEq

/-- Python truthiness of `new_commit` (an `Optional[str]`): `None` and the
empty string are falsy. -/
def pyTruthy : Option String → Bool
  | none => false
  | some s => !s.data.isEmpty

/-- What one refresh cycle did: the bot state after the cycle, whether the
dataset was fetched this cycle, and whether a new snapshot was adopted. -/
structure CycleResult where
  state : BotState
  didFetchDataset : Bool
  adopted : Bool
deriving Repr, DecidableEq

/-- One iteration of `auto_update_data` (`bot.py` lines 176-207): fetch the
revision marker; when it is truthy and differs from `last_commit_hash`, fetch
the dataset, and on adoption record the marker. `commit` is this cycle's
`get_latest_commit` result; `dataEnv` feeds this cycle's `fetch_data`. -/
def auto_update_cycle (st : BotState) (commit : Option String)
    (dataEnv : Nat → AttemptResult) : CycleResult :=
  if pyTruthy commit && commit != st.last_commit_hash then
    let r := fetch_data st.cache dataEnv 3
    if r.2 then ⟨⟨r.1, commit⟩, true, true⟩
    else ⟨⟨r.1, st.last_commit_hash⟩, true, false⟩
  else ⟨st, false, false⟩

/-- The start-up sequence `on_ready` (`bot.py` lines 214-227): record the
fetched marker unconditionally, then run the dataset fetch once,
unconditionally. -/
def on_ready (st : BotState) (commit : Option String)
    (dataEnv : Nat → AttemptResult) : BotState :=
  ⟨(fetch_data st.cache dataEnv 3).1, commit⟩

/-- The in-stock test used by the `stock` and `status` commands
(`bot.py` lines 426 and 526): `item['stock'].lower() not in ["habis", "0"]`. -/
def stockAvailable (s : String) : Bool :=
  !(["habis", "0"].contains (pyLower s))

/-- The products contributed by `lines` when the parser starts in section
`sec`: the records of the valid `PRODUCTS` lines, in input order. -/
def extractProducts : Option String → List String → List Product
  | _, [] => []
  | sec, l :: ls =>
    match classifyLine sec l with
    | .setSection s => extractProducts (some s) ls
    | .addProduct p => p :: extractProducts sec ls
    | _ => extractProducts sec ls

/-- The FAQ items contributed by `lines` when the parser starts in section
`sec`, in input order. -/
def extractFAQ : Option String → List String → List FAQItem
  | _, [] => []
  | sec, l :: ls =>
    match classifyLine sec l with
    | .setSection s => extractFAQ (some s) ls
    | .addFAQ q a => ⟨q, a⟩ :: extractFAQ sec ls
    | _ => extractFAQ sec ls

/-- The number of candidate data lines of the section named `target`:
non-blank, non-comment, non-header lines read while the current section is
`target`. -/
def countSectionLines (target : String) : Option String → List String → Nat
  | _, [] => 0
  | sec, l :: ls =>
    match lineKind l with
    | .blank => countSectionLines target sec ls
    | .header s => countSectionLines target (some s) ls
    | .dataLine _ =>
      (if sec == some target then 1 else 0) + countSectionLines target sec ls

/-- Distinct list elements in first-seen order. -/
def firstKeys : List String → List String
  | [] => []
  | c :: rest => c :: (firstKeys rest).filter (fun k => k != c)

/-- The keys of the category index, in order. -/
def catKeys (cats : Categories) : List String := cats.map Prod.fst

/-- The category index built from a product list by the parser's insertion
discipline. -/
def categoriesOf (ps : List Product) : Categories :=
  ps.foldl (fun acc p => addToCategories acc p.category p) []

/-- Internal consistency of a snapshot: every product listed under a category
is in the product list, and every product is listed under its own category. -/
def Consistent (s : Snapshot) : Prop :=
  (∀ e ∈ s.categories, ∀ p ∈ e.2, p ∈ s.products)
  ∧ (∀ p ∈ s.products, ∃ l, (p.category, l) ∈ s.categories ∧ p ∈ l)

/-- The cache contents after a sequence of refresh rounds whose fetched
dataset bodies are `texts`, each round offering its parse to the cache
(`bot.py` lines 138-148), starting from the empty start-up cache. -/
def cacheAfter (texts : List String) : Snapshot :=
  texts.foldl (fun cache t => (cacheReplace cache (parse_data_file t)).1) emptySnapshot

/-- A dataset document used in concrete runs. -/
def sampleDoc : String := "[PRODUCTS]\nVIP|Gold Pack|100000|Desc|5"

/-- An environment whose every attempt returns a 200 response with
`sampleDoc`. -/
def goodEnv : Nat → AttemptResult := fun _ => .response 200 sampleDoc

theorem addToCategories_keys (cats : Categories) (c : String) (p : Product) :
    catKeys (addToCategories cats c p)
      = if c ∈ catKeys cats then catKeys cats else catKeys cats ++ [c] := by
  induction cats with
  | nil => simp [addToCategories, catKeys]
  | cons e rest ih =>
    obtain ⟨k, ps⟩ := e
    by_cases hk : k = c
    · subst hk
      simp [addToCategories, catKeys]
    · simp only [addToCategories, if_neg hk, catKeys, List.map_cons] at ih ⊢
      rw [ih]
      by_cases hc : c ∈ rest.map Prod.fst
      · rw [if_pos hc, if_pos (List.mem_cons_of_mem k hc)]
      · rw [if_neg hc, if_neg (by
          intro h
          rcases List.mem_cons.mp h with h1 | h2
          · exact hk h1.symm
          · exact hc h2)]
        simp

theorem addToCategories_lookup (cats : Categories) (c₀ : String) (p : Product)
    (c : String) :
    List.lookup c (addToCategories cats c₀ p)
      = if c = c₀ then some (((List.lookup c₀ cats).getD []) ++ [p])
        else List.lookup c cats := by
  induction cats with
  | nil =>
    by_cases h : c = c₀
    · subst h
      simp [addToCategories, List.lookup]
    · have hcc : (c == c₀) = false := by simp [h]
      simp [addToCategories, List.lookup, h, hcc]
  | cons e rest ih =>
    obtain ⟨k, ps⟩ := e
    by_cases hk : k = c₀
    · subst hk
      by_cases h : c = k
      · subst h
        simp [addToCategories, List.lookup]
      · have hcc : (c == k) = false := by simp [h]
        simp [addToCategories, List.lookup, h, hcc]
    · by_cases h : c = c₀
      · subst h
        have hck : (c == k) = false := by
          simp
          intro hh
          exact hk hh.symm
        simp [addToCategories, if_neg hk, List.lookup, hck, ih]
      · by_cases hck : c = k
        · subst hck
          simp [addToCategories, if_neg hk, List.lookup, ih, h]
        · simp [addToCategories, if_neg hk, List.lookup, hck, ih, h]

theorem firstKeys_cons (x : String) (xs : List String) :
    firstKeys (x :: xs) = x :: (firstKeys xs).filter (fun k => k != x) := rfl

theorem mem_firstKeys (a : String) (xs : List String) : a ∈ firstKeys xs ↔ a ∈ xs := by
  induction xs with
  | nil => simp [firstKeys]
  | cons x rest ih =>
    simp only [firstKeys, List.mem_cons, List.mem_filter, bne_iff_ne]
    constructor
    · rintro (rfl | ⟨h1, _⟩)
      · exact Or.inl rfl
      · exact Or.inr (ih.mp h1)
    · rintro (rfl | h)
      · exact Or.inl rfl
      · by_cases hx : a = x
        · exact Or.inl hx
        · exact Or.inr ⟨ih.mpr h, hx⟩

theorem firstKeys_nodup (xs : List String) : (firstKeys xs).Nodup := by
  induction xs with
  | nil => simp [firstKeys]
  | cons x rest ih =>
    simp only [firstKeys, List.nodup_cons]
    constructor
    · intro hmem
      have hne := (List.mem_filter.mp hmem).2
      simp at hne
    · exact ih.filter _

theorem firstKeys_append_singleton (xs : List String) (c : String) :
    firstKeys (xs ++ [c]) = if c ∈ xs then firstKeys xs else firstKeys xs ++ [c] := by
  induction xs with
  | nil => simp [firstKeys]
  | cons x rest ih =>
    rw [List.cons_append, firstKeys_cons, ih, firstKeys_cons]
    by_cases hc : c ∈ rest
    · rw [if_pos hc, if_pos (List.mem_cons_of_mem x hc)]
    · rw [if_neg hc]
      by_cases hcx : c = x
      · subst hcx
        rw [if_pos (List.mem_cons_self _ _), List.filter_append]
        simp
      · rw [if_neg (by
          intro h
          rcases List.mem_cons.mp h with h1 | h2
          · exact hcx h1
          · exact hc h2)]
        rw [List.filter_append]
        simp [hcx]

theorem lookup_eq_some_of_mem {cats : Categories} {c : String} {l : List Product}
    (hnd : (catKeys cats).Nodup) (hmem : (c, l) ∈ cats) :
    List.lookup c cats = some l := by
  induction cats with
  | nil => simp at hmem
  | cons e rest ih =>
    obtain ⟨k, ps⟩ := e
    simp only [catKeys, List.map_cons, List.nodup_cons] at hnd
    rcases List.mem_cons.mp hmem with h | h
    · injection h with h1 h2
      subst h1
      subst h2
      simp [List.lookup]
    · have hc : c ∈ rest.map Prod.fst := List.mem_map.mpr ⟨(c, l), h, rfl⟩
      have hck : (c == k) = false := by
        simp
        intro hh
        subst hh
        exact hnd.1 hc
      simp only [List.lookup, hck]
      exact ih hnd.2 h

theorem mem_of_lookup_eq_some {cats : Categories} {c : String} {l : List Product}
    (h : List.lookup c cats = some l) : (c, l) ∈ cats := by
  induction cats with
  | nil => simp [List.lookup] at h
  | cons e rest ih =>
    obtain ⟨k, ps⟩ := e
    by_cases hk : c = k
    · subst hk
      simp [List.lookup] at h
      subst h
      exact List.mem_cons_self _ _
    · have hck : (c == k) = false := by simp [hk]
      simp only [List.lookup, hck] at h
      exact List.mem_cons_of_mem _ (ih h)

theorem categoriesOf_append_singleton (ps : List Product) (p : Product) :
    categoriesOf (ps ++ [p]) = addToCategories (categoriesOf ps) p.category p := by
  simp [categoriesOf, List.foldl_append]

theorem categoriesOf_lookup (ps : List Product) (c : String) :
    List.lookup c (categoriesOf ps)
      = if ps.filter (fun q => q.category == c) = [] then none
        else some (ps.filter (fun q => q.category == c)) := by
  induction ps using List.reverseRecOn with
  | nil => simp [categoriesOf, List.lookup]
  | append_singleton ps p ih =>
    rw [categoriesOf_append_singleton, addToCategories_lookup]
    by_cases hc : c = p.category
    · subst hc
      rw [if_pos rfl, List.filter_append, ih]
      by_cases hf : ps.filter (fun q => q.category == p.category) = []
      · rw [if_pos hf, hf]
        simp
      · rw [if_neg hf]
        simp
    · rw [if_neg hc, ih, List.filter_append]
      have hpc : (p.category == c) = false := by
        simp
        intro hh
        exact hc hh.symm
      simp [List.filter, hpc]

theorem categoriesOf_keys (ps : List Product) :
    catKeys (categoriesOf ps) = firstKeys (ps.map (fun q => q.category)) := by
  induction ps using List.reverseRecOn with
  | nil => simp [categoriesOf, catKeys, firstKeys]
  | append_singleton ps p ih =>
    rw [categoriesOf_append_singleton, addToCategories_keys, ih, List.map_append,
        List.map_singleton, firstKeys_append_singleton]
    by_cases hc : p.category ∈ ps.map (fun q => q.category)
    · rw [if_pos ((mem_firstKeys _ _).mpr hc), if_pos hc]
    · rw [if_neg (fun h => hc ((mem_firstKeys _ _).mp h)), if_neg hc]

theorem categoriesOf_keys_nodup (ps : List Product) :
    (catKeys (categoriesOf ps)).Nodup := by
  rw [categoriesOf_keys]
  exact firstKeys_nodup _

theorem classifyLine_blank {l : String} (h : lineKind l = .blank)
    (sec : Option String) : classifyLine sec l = .skip := by
  simp [classifyLine, h]

theorem classifyLine_header {l s : String} (h : lineKind l = .header s)
    (sec : Option String) : classifyLine sec l = .setSection s := by
  simp [classifyLine, h]

theorem classifyLine_not_setSection {l line : String}
    (hk : lineKind l = .dataLine line) (sec : Option String) (s : String) :
    classifyLine sec l ≠ .setSection s := by
  intro h
  simp only [classifyLine, hk] at h
  split at h
  · split at h <;> simp at h
  · split at h
    · split at h <;> simp at h
    · simp at h

theorem classifyLine_addProduct_sec {sec : Option String} {l : String} {p : Product}
    (h : classifyLine sec l = .addProduct p) : sec = some "PRODUCTS" := by
  by_contra hs
  have hb : (sec == some "PRODUCTS") = false := by simp [hs]
  unfold classifyLine at h
  cases hk : lineKind l <;> rw [hk] at h
  · simp at h
  · simp at h
  · simp only [hb, Bool.false_and, Bool.false_eq_true, if_false] at h
    split at h
    · split at h <;> simp at h
    · simp at h

theorem classifyLine_addFAQ_sec {sec : Option String} {l : String} {q a : String}
    (h : classifyLine sec l = .addFAQ q a) : sec = some "FAQ" := by
  by_contra hs
  have hb : (sec == some "FAQ") = false := by simp [hs]
  unfold classifyLine at h
  cases hk : lineKind l <;> rw [hk] at h
  · simp at h
  · simp at h
  · simp only [hb, Bool.false_and, Bool.false_eq_true, if_false] at h
    split at h
    · split at h <;> simp at h
    · simp at h

theorem processLine_spec (st : ParseState) (l : String) :
    processLine st l
      = match classifyLine st.currentSection l with
        | .skip => st
        | .setSection s => { st with currentSection := some s }
        | .addFAQ q a => { st with faq := st.faq ++ [⟨q, a⟩] }
        | .addProduct p =>
            { st with
              products := st.products ++ [p]
              categories := addToCategories st.categories p.category p } := rfl

theorem foldl_processLine_spec (lines : List String) :
    ∀ st : ParseState,
      (lines.foldl processLine st).products
          = st.products ++ extractProducts st.currentSection lines
      ∧ (lines.foldl processLine st).faq
          = st.faq ++ extractFAQ st.currentSection lines
      ∧ (lines.foldl processLine st).categories
          = (extractProducts st.currentSection lines).foldl
              (fun acc p => addToCategories acc p.category p) st.categories := by
  induction lines with
  | nil => intro st; simp [extractProducts, extractFAQ]
  | cons l ls ih =>
    intro st
    rw [List.foldl_cons, processLine_spec]
    cases hc : classifyLine st.currentSection l with
    | skip =>
      simp only [extractProducts, extractFAQ, hc]
      exact ih st
    | setSection s =>
      simp only [extractProducts, extractFAQ, hc]
      exact ih { st with currentSection := some s }
    | addFAQ q a =>
      simp only [extractProducts, extractFAQ, hc]
      obtain ⟨h1, h2, h3⟩ := ih { st with faq := st.faq ++ [⟨q, a⟩] }
      refine ⟨h1, ?_, h3⟩
      rw [h2]
      simp
    | addProduct p =>
      simp only [extractProducts, extractFAQ, hc]
      obtain ⟨h1, h2, h3⟩ := ih
        { st with
          products := st.products ++ [p]
          categories := addToCategories st.categories p.category p }
      refine ⟨?_, h2, ?_⟩
      · rw [h1]
        simp
      · rw [h3]
        rfl

theorem parse_products_eq (content : String) :
    (parse_data_file content).products = extractProducts none (toLines content) :=
  (foldl_processLine_spec (toLines content) ⟨[], [], [], none⟩).1

theorem parse_faq_eq (content : String) :
    (parse_data_file content).faq = extractFAQ none (toLines content) :=
  (foldl_processLine_spec (toLines content) ⟨[], [], [], none⟩).2.1

theorem parse_categories_eq (content : String) :
    (parse_data_file content).categories
      = categoriesOf ((parse_data_file content).products) := by
  have h := (foldl_processLine_spec (toLines content) ⟨[], [], [], none⟩).2.2
  have hp := parse_products_eq content
  show (parse_data_file content).categories = _
  rw [show (parse_data_file content).categories
        = ((toLines content).foldl processLine ⟨[], [], [], none⟩).categories from rfl,
      h, categoriesOf, hp]

theorem extractProducts_length_le (lines : List String) :
    ∀ sec : Option String,
      (extractProducts sec lines).length ≤ countSectionLines "PRODUCTS" sec lines := by
  induction lines with
  | nil => intro sec; simp [extractProducts, countSectionLines]
  | cons l ls ih =>
    intro sec
    cases hk : lineKind l with
    | blank =>
      rw [show extractProducts sec (l :: ls) = extractProducts sec ls from by
        simp [extractProducts, classifyLine_blank hk]]
      simp only [countSectionLines, hk]
      exact ih sec
    | header s =>
      rw [show extractProducts sec (l :: ls) = extractProducts (some s) ls from by
        simp [extractProducts, classifyLine_header hk]]
      simp only [countSectionLines, hk]
      exact ih (some s)
    | dataLine line =>
      have hcount : countSectionLines "PRODUCTS" sec (l :: ls)
          = (if sec == some "PRODUCTS" then 1 else 0)
              + countSectionLines "PRODUCTS" sec ls := by
        simp only [countSectionLines, hk]
      rw [hcount]
      cases hc : classifyLine sec l with
      | skip =>
        rw [show extractProducts sec (l :: ls) = extractProducts sec ls from by
          simp [extractProducts, hc]]
        exact le_trans (ih sec) (Nat.le_add_left _ _)
      | setSection s => exact absurd hc (classifyLine_not_setSection hk sec s)
      | addFAQ q a =>
        rw [show extractProducts sec (l :: ls) = extractProducts sec ls from by
          simp [extractProducts, hc]]
        exact le_trans (ih sec) (Nat.le_add_left _ _)
      | addProduct p =>
        rw [show extractProducts sec (l :: ls) = p :: extractProducts sec ls from by
          simp [extractProducts, hc]]
        have hsec := classifyLine_addProduct_sec hc
        subst hsec
        simp only [List.length_cons, beq_self_eq_true, if_pos]
        have := ih (some "PRODUCTS")
        omega

theorem extractFAQ_length_le (lines : List String) :
    ∀ sec : Option String,
      (extractFAQ sec lines).length ≤ countSectionLines "FAQ" sec lines := by
  induction lines with
  | nil => intro sec; simp [extractFAQ, countSectionLines]
  | cons l ls ih =>
    intro sec
    cases hk : lineKind l with
    | blank =>
      rw [show extractFAQ sec (l :: ls) = extractFAQ sec ls from by
        simp [extractFAQ, classifyLine_blank hk]]
      simp only [countSectionLines, hk]
      exact ih sec
    | header s =>
      rw [show extractFAQ sec (l :: ls) = extractFAQ (some s) ls from by
        simp [extractFAQ, classifyLine_header hk]]
      simp only [countSectionLines, hk]
      exact ih (some s)
    | dataLine line =>
      have hcount : countSectionLines "FAQ" sec (l :: ls)
          = (if sec == some "FAQ" then 1 else 0) + countSectionLines "FAQ" sec ls := by
        simp only [countSectionLines, hk]
      rw [hcount]
      cases hc : classifyLine sec l with
      | skip =>
        rw [show extractFAQ sec (l :: ls) = extractFAQ sec ls from by
          simp [extractFAQ, hc]]
        exact le_trans (ih sec) (Nat.le_add_left _ _)
      | setSection s => exact absurd hc (classifyLine_not_setSection hk sec s)
      | addProduct p =>
        rw [show extractFAQ sec (l :: ls) = extractFAQ sec ls from by
          simp [extractFAQ, hc]]
        exact le_trans (ih sec) (Nat.le_add_left _ _)
      | addFAQ q a =>
        rw [show extractFAQ sec (l :: ls) = ⟨q, a⟩ :: extractFAQ sec ls from by
          simp [extractFAQ, hc]]
        have hsec := classifyLine_addFAQ_sec hc
        subst hsec
        simp only [List.length_cons, beq_self_eq_true, if_pos]
        have := ih (some "FAQ")
        omega

theorem consistent_of_categories_eq {s : Snapshot}
    (h : s.categories = categoriesOf s.products) : Consistent s := by
  constructor
  · rintro ⟨c, l⟩ he p hp
    have hnd : (catKeys s.categories).Nodup := by
      rw [h]
      exact categoriesOf_keys_nodup _
    have hlk := lookup_eq_some_of_mem hnd he
    rw [h, categoriesOf_lookup] at hlk
    by_cases hf : s.products.filter (fun q => q.category == c) = []
    · rw [if_pos hf] at hlk
      exact absurd hlk (by simp)
    · rw [if_neg hf] at hlk
      have hl : s.products.filter (fun q => q.category == c) = l :=
        Option.some.inj hlk
      rw [← hl] at hp
      exact (List.mem_filter.mp hp).1
  · intro p hp
    have hpf : p ∈ s.products.filter (fun q => q.category == p.category) :=
      List.mem_filter.mpr ⟨hp, by simp⟩
    have hne : s.products.filter (fun q => q.category == p.category) ≠ [] :=
      List.ne_nil_of_mem hpf
    have hlk : List.lookup p.category s.categories
        = some (s.products.filter (fun q => q.category == p.category)) := by
      rw [h, categoriesOf_lookup, if_neg hne]
    exact ⟨_, mem_of_lookup_eq_some hlk, hpf⟩

theorem parse_consistent (content : String) : Consistent (parse_data_file content) :=
  consistent_of_categories_eq (parse_categories_eq content)

theorem emptySnapshot_consistent : Consistent emptySnapshot := by
  constructor
  · intro e he
    simp [emptySnapshot] at he
  · intro p hp
    simp [emptySnapshot] at hp

theorem cacheReplace_fst (cache cand : Snapshot) :
    (cacheReplace cache cand).1 = cache ∨ (cacheReplace cache cand).1 = cand := by
  unfold cacheReplace
  split
  · exact Or.inl rfl
  · exact Or.inr rfl

theorem cacheAfter_consistent (texts : List String) : Consistent (cacheAfter texts) := by
  suffices h : ∀ cache : Snapshot, Consistent cache →
      Consistent (texts.foldl (fun c t => (cacheReplace c (parse_data_file t)).1) cache) by
    exact h emptySnapshot emptySnapshot_consistent
  induction texts with
  | nil =>
    intro cache hc
    exact hc
  | cons t ts ih =>
    intro cache hc
    rw [List.foldl_cons]
    apply ih
    rcases cacheReplace_fst cache (parse_data_file t) with h | h <;> rw [h]
    · exact hc
    · exact parse_consistent t

theorem fetch_data_run_all_failed (cache : Snapshot) (attempts : List AttemptResult)
    (h : ∀ a ∈ attempts, attemptFailed a = true) :
    fetch_data_run cache attempts = (cache, false) := by
  induction attempts with
  | nil => rfl
  | cons a rest ih =>
    cases a with
    | failure => exact ih (fun x hx => h x (List.mem_cons_of_mem _ hx))
    | response status body =>
      have hs : (status == 200) = false := by
        have hf := h _ (List.mem_cons_self _ _)
        simpa [attemptFailed, bne] using hf
      simp only [fetch_data_run, hs, Bool.false_eq_true, if_false]
      exact ih (fun x hx => h x (List.mem_cons_of_mem _ hx))

theorem get_latest_commit_run_all_failed (attempts : List RevAttempt)
    (h : ∀ a ∈ attempts, revAttemptFailed a = true) :
    get_latest_commit_run attempts = none := by
  induction attempts with
  | nil => rfl
  | cons a rest ih =>
    cases a with
    | failure => exact ih (fun x hx => h x (List.mem_cons_of_mem _ hx))
    | response status json =>
      have hs := h _ (List.mem_cons_self _ _)
      simp only [revAttemptFailed, bne, Bool.or_eq_true, Bool.not_eq_true'] at hs
      by_cases h200 : (status == 200) = true
      · have hj : json = none := by
          rcases hs with hs | hs
          · rw [h200] at hs
            exact absurd hs (by simp)
          · exact Option.isNone_iff_eq_none.mp hs
        subst hj
        simp only [get_latest_commit_run, h200, if_true]
        exact ih (fun x hx => h x (List.mem_cons_of_mem _ hx))
      · have hf : (status == 200) = false := by simpa using h200
        simp only [get_latest_commit_run, hf, Bool.false_eq_true, if_false]
        exact ih (fun x hx => h x (List.mem_cons_of_mem _ hx))

theorem fetch_data_all_failed (cache : Snapshot) (env : Nat → AttemptResult)
    (retries : Nat) (h : ∀ i, attemptFailed (env i) = true) :
    fetch_data cache env retries = (cache, false) := by
  apply fetch_data_run_all_failed
  intro a ha
  rcases List.mem_map.mp ha with ⟨i, _, rfl⟩
  exact h i

theorem get_latest_commit_all_failed (env : Nat → RevAttempt) (retries : Nat)
    (h : ∀ i, revAttemptFailed (env i) = true) :
    get_latest_commit env retries = none := by
  apply get_latest_commit_run_all_failed
  intro a ha
  rcases List.mem_map.mp ha with ⟨i, _, rfl⟩
  exact h i

theorem auto_update_cycle_eq (st : BotState) (commit : Option String)
    (dataEnv : Nat → AttemptResult) :
    auto_update_cycle st commit dataEnv
      = if pyTruthy commit && commit != st.last_commit_hash then
          if (fetch_data st.cache dataEnv 3).2 then
            ⟨⟨(fetch_data st.cache dataEnv 3).1, commit⟩, true, true⟩
          else ⟨⟨(fetch_data st.cache dataEnv 3).1, st.last_commit_hash⟩, true, false⟩
        else ⟨st, false, false⟩ := rfl

theorem take_five_eq {α : Type} {xs : List α} {a b c d e : α}
    (h : xs.take 5 = [a, b, c, d, e]) :
    ∃ rest, xs = a :: b :: c :: d :: e :: rest := by
  rcases xs with _ | ⟨x1, _ | ⟨x2, _ | ⟨x3, _ | ⟨x4, _ | ⟨x5, rest⟩⟩⟩⟩⟩ <;>
    simp [List.take] at h
  obtain ⟨h1, h2, h3, h4, h5⟩ := h
  exact ⟨rest, by rw [h1, h2, h3, h4, h5]⟩

/-- A cache holding three products, as in the spec's replace example. -/
def threeProductCache : Snapshot :=
  ⟨[⟨"VIP", "A", "1", "d", "1"⟩, ⟨"VIP", "B", "2", "d", "2"⟩,
    ⟨"VIP", "C", "3", "d", "3"⟩],
   [],
   [("VIP", [⟨"VIP", "A", "1", "d", "1"⟩, ⟨"VIP", "B", "2", "d", "2"⟩,
     ⟨"VIP", "C", "3", "d", "3"⟩])]⟩

/-- C3: `replace` adopts the candidate and returns `true` exactly when the
candidate has a non-empty product list or a non-empty FAQ list; when both are
empty it returns `false` and the retained snapshot — products, faq and
categories — is exactly the previous one. -/
theorem cacheReplace_spec (cache cand : Snapshot) :
    ((cacheReplace cache cand).2 = true ↔ (cand.products ≠ [] ∨ cand.faq ≠ []))
    ∧ ((cand.products ≠ [] ∨ cand.faq ≠ []) → cacheReplace cache cand = (cand, true))
    ∧ (cand.products = [] → cand.faq = [] → cacheReplace cache cand = (cache, false)) := by
  by_cases hp : cand.products = []
  · by_cases hf : cand.faq = []
    · simp [cacheReplace, hp, hf]
    · simp [cacheReplace, hp, hf]
  · simp [cacheReplace, hp]

/-- C3 witness: starting from a snapshot with three products, replacing with
the empty snapshot returns `false` and keeps the three products. -/
theorem cacheReplace_spec_witness :
    cacheReplace threeProductCache emptySnapshot = (threeProductCache, false) :=
  (cacheReplace_spec threeProductCache emptySnapshot).2.2 rfl rfl

/-- C5: parsing is total — it is a Lean function returning on every input —
and the number of parsed products (resp. FAQ items) is at most the number of
non-blank, non-comment, non-header lines read under the `PRODUCTS`
(resp. `FAQ`) section. -/
theorem parse_length_bounds (content : String) :
    (parse_data_file content).products.length
        ≤ countSectionLines "PRODUCTS" none (toLines content)
    ∧ (parse_data_file content).faq.length
        ≤ countSectionLines "FAQ" none (toLines content) := by
  constructor
  · rw [parse_products_eq]
    exact extractProducts_length_le (toLines content) none
  · rw [parse_faq_eq]
    exact extractFAQ_length_le (toLines content) none

/-- C5 witness: the bounds at a concrete document with a malformed line. -/
theorem parse_length_bounds_witness :
    (parse_data_file "[PRODUCTS]\nVIP|Gold|1|d|5\nbad\n# c").products.length
        ≤ countSectionLines "PRODUCTS" none
            (toLines "[PRODUCTS]\nVIP|Gold|1|d|5\nbad\n# c")
    ∧ (parse_data_file "[PRODUCTS]\nVIP|Gold|1|d|5\nbad\n# c").faq.length
        ≤ countSectionLines "FAQ" none
            (toLines "[PRODUCTS]\nVIP|Gold|1|d|5\nbad\n# c") :=
  parse_length_bounds "[PRODUCTS]\nVIP|Gold|1|d|5\nbad\n# c"

/-- C6: the snapshot returned by parse is internally consistent — every
product in a category list is in the product list and every product is in
its own category's list — and so is every snapshot the cache exposes after
any sequence of refresh rounds. -/
theorem snapshot_consistency (content : String) (texts : List String) :
    Consistent (parse_data_file content) ∧ Consistent (cacheAfter texts) :=
  ⟨parse_consistent content, cacheAfter_consistent texts⟩

/-- C6 witness: consistency at a concrete document and refresh history. -/
theorem snapshot_consistency_witness :
    Consistent (parse_data_file "[PRODUCTS]\nVIP|Gold|1|d|5")
    ∧ Consistent (cacheAfter ["[PRODUCTS]\nVIP|Gold|1|d|5", ""]) :=
  snapshot_consistency "[PRODUCTS]\nVIP|Gold|1|d|5" ["[PRODUCTS]\nVIP|Gold|1|d|5", ""]

/-- C7: the last-applied marker changes only in a cycle whose replace is
adopted, and then it becomes that cycle's fetched marker; a cycle whose
revision fetch returns none, whose dataset attempts all fail, or whose
candidate is rejected leaves the marker unchanged. -/
theorem marker_update_spec (st : BotState) (commit : Option String)
    (dataEnv : Nat → AttemptResult) :
    ((auto_update_cycle st commit dataEnv).state.last_commit_hash
          ≠ st.last_commit_hash
        → (auto_update_cycle st commit dataEnv).adopted = true
          ∧ (auto_update_cycle st commit dataEnv).state.last_commit_hash = commit)
    ∧ ((auto_update_cycle st commit dataEnv).adopted = false
        → (auto_update_cycle st commit dataEnv).state.last_commit_hash
            = st.last_commit_hash)
    ∧ (commit = none → auto_update_cycle st commit dataEnv = ⟨st, false, false⟩)
    ∧ ((∀ i, attemptFailed (dataEnv i) = true)
        → (auto_update_cycle st commit dataEnv).state.last_commit_hash
            = st.last_commit_hash) := by
  by_cases hcond : (pyTruthy commit && commit != st.last_commit_hash) = true
  · by_cases hr : (fetch_data st.cache dataEnv 3).2 = true
    · rw [auto_update_cycle_eq, if_pos hcond, if_pos hr]
      refine ⟨fun _ => ⟨rfl, rfl⟩, fun hadopt => ?_, fun hcommit => ?_, fun hfail => ?_⟩
      · exact absurd hadopt (by simp)
      · subst hcommit
        simp [pyTruthy] at hcond
      · have hff := fetch_data_all_failed st.cache dataEnv 3 hfail
        rw [hff] at hr
        exact absurd hr (by simp)
    · rw [auto_update_cycle_eq, if_pos hcond, if_neg hr]
      refine ⟨fun hne => absurd rfl hne, fun _ => rfl, fun hcommit => ?_, fun _ => rfl⟩
      subst hcommit
      simp [pyTruthy] at hcond
  · rw [auto_update_cycle_eq, if_neg hcond]
    exact ⟨fun hne => absurd rfl hne, fun _ => rfl, fun _ => rfl, fun _ => rfl⟩

/-- C7 witness: a cycle with a changed marker whose dataset attempts all fail
leaves the marker unchanged. -/
theorem marker_update_spec_witness :
    (auto_update_cycle ⟨emptySnapshot, some "a"⟩ (some "b")
        (fun _ => AttemptResult.failure)).state.last_commit_hash = some "a" :=
  (marker_update_spec ⟨emptySnapshot, some "a"⟩ (some "b")
      (fun _ => AttemptResult.failure)).2.2.2 (fun _ => rfl)

/-- C8: the out-of-stock classification used by the command layer holds
exactly when the lower-cased stock string equals "habis" or "0"; "Habis" and
"0" are out of stock while "5" and "Tersedia" are in stock. -/
theorem stock_classification (s : String) :
    (stockAvailable s = false ↔ (pyLower s = "habis" ∨ pyLower s = "0"))
    ∧ stockAvailable "Habis" = false
    ∧ stockAvailable "0" = false
    ∧ stockAvailable "5" = true
    ∧ stockAvailable "Tersedia" = true := by
  refine ⟨?_, by decide, by decide, by decide, by decide⟩
  simp [stockAvailable, List.contains]
  tauto

/-- C8 witness: the classification at "Habis". -/
theorem stock_classification_witness : stockAvailable "Habis" = false :=
  (stock_classification "Habis").2.1

/-- C9: the fetchers never surface an error: a dataset fetch whose three
attempts all end in a non-success status or transport failure returns `false`
and leaves the cache alone; a revision fetch returns `none` when all three
attempts fail and also when a 200 response's JSON object has no "sha" field. -/
theorem fetch_not_available (cache : Snapshot) (env : Nat → AttemptResult)
    (renv : Nat → RevAttempt) (obj : List (String × String))
    (rest : List RevAttempt) :
    ((∀ i, attemptFailed (env i) = true) → fetch_data cache env 3 = (cache, false))
    ∧ ((∀ i, revAttemptFailed (renv i) = true) → get_latest_commit renv 3 = none)
    ∧ (List.lookup "sha" obj = none →
        get_latest_commit_run (.response 200 (some obj) :: rest) = none) := by
  refine ⟨fun h => fetch_data_all_failed cache env 3 h,
    fun h => get_latest_commit_all_failed renv 3 h, fun h => ?_⟩
  simp [get_latest_commit_run, h]

/-- C9 witness: all-failing environments and a sha-less JSON object. -/
theorem fetch_not_available_witness :
    fetch_data emptySnapshot (fun _ => AttemptResult.failure) 3
        = (emptySnapshot, false)
    ∧ get_latest_commit (fun _ => RevAttempt.failure) 3 = none
    ∧ get_latest_commit_run [.response 200 (some [("foo", "bar")])] = none := by
  have h := fetch_not_available emptySnapshot (fun _ => AttemptResult.failure)
    (fun _ => RevAttempt.failure) [("foo", "bar")] []
  exact ⟨h.1 (fun _ => rfl), h.2.1 (fun _ => rfl), h.2.2 (by decide)⟩

/-- C10: the parser validates no field contents: under `PRODUCTS` the line
`||||` (four separators, all fields empty) yields a product whose five fields
are all the empty string, indexed under the key `""`; under `FAQ` a line
beginning with `|` yields an item with an empty question. -/
theorem parse_no_field_validation :
    parse_data_file "[PRODUCTS]\n||||\n[FAQ]\n|Contact admin"
      = ⟨[⟨"", "", "", "", ""⟩], [⟨"", "Contact admin"⟩],
         [("", [⟨"", "", "", "", ""⟩])]⟩ := rfl

/-- C4: parse returns exactly the records of the valid `PRODUCTS` lines and
of the valid `FAQ` lines, in input order; the category index keys are exactly
the distinct categories among them in first-seen order, each mapped to that
category's products in input order; and the spec's concrete example parses as
stated. -/
theorem parse_roundtrip (content : String) :
    (parse_data_file content).products = extractProducts none (toLines content)
    ∧ (parse_data_file content).faq = extractFAQ none (toLines content)
    ∧ catKeys (parse_data_file content).categories
        = firstKeys ((parse_data_file content).products.map (fun p => p.category))
    ∧ (∀ c ∈ catKeys (parse_data_file content).categories,
        List.lookup c (parse_data_file content).categories
          = some ((parse_data_file content).products.filter
              (fun p => p.category == c)))
    ∧ parse_data_file
          "[PRODUCTS]\nVIP|Gold Pack|100000|Desc|5\n[FAQ]\nHow to buy?|Contact admin"
        = ⟨[⟨"VIP", "Gold Pack", "100000", "Desc", "5"⟩],
           [⟨"How to buy?", "Contact admin"⟩],
           [("VIP", [⟨"VIP", "Gold Pack", "100000", "Desc", "5"⟩])]⟩ := by
  refine ⟨parse_products_eq content, parse_faq_eq content, ?_, ?_, rfl⟩
  · rw [parse_categories_eq, categoriesOf_keys]
  · intro c hc
    rw [parse_categories_eq, categoriesOf_keys, mem_firstKeys] at hc
    rcases List.mem_map.mp hc with ⟨p, hp, hpc⟩
    rw [parse_categories_eq, categoriesOf_lookup]
    have hne : (parse_data_file content).products.filter
        (fun q => q.category == c) ≠ [] := by
      intro hempty
      have hmem : p ∈ (parse_data_file content).products.filter
          (fun q => q.category == c) :=
        List.mem_filter.mpr ⟨hp, by simp [hpc]⟩
      rw [hempty] at hmem
      simp at hmem
    rw [if_neg hne]

/-- C4 witness: the category index of the example document at key "VIP". -/
theorem parse_roundtrip_witness :
    List.lookup "VIP"
        (parse_data_file "[PRODUCTS]\nVIP|Gold Pack|100000|Desc|5").categories
      = some [⟨"VIP", "Gold Pack", "100000", "Desc", "5"⟩] := by
  have h := (parse_roundtrip "[PRODUCTS]\nVIP|Gold Pack|100000|Desc|5").2.2.2.1
    "VIP" (by decide)
  rw [h]
  decide

/-- C1 counterexample: a reachable refresh cycle in which the cache is empty
(no products and no FAQ items) and yet no dataset fetch occurs, because the
fetched marker equals the last-applied one: at start-up the marker "a" is
recorded while the dataset fetch gets only 404 responses, leaving the cache
empty; the next cycle fetches marker "a" again and performs no dataset fetch
— the refresh loop has no empty-cache force-fetch. -/
theorem bootstrap_force_fetch_counterexample :
    (on_ready ⟨emptySnapshot, none⟩ (some "a") (fun _ => .response 404 "")).cache
        = emptySnapshot
    ∧ (auto_update_cycle
          (on_ready ⟨emptySnapshot, none⟩ (some "a") (fun _ => .response 404 ""))
          (some "a") goodEnv).didFetchDataset = false := ⟨rfl, rfl⟩

/-- The start-up state after `on_ready` fetched marker "a" and a good
dataset. -/
def startState : BotState := on_ready ⟨emptySnapshot, none⟩ (some "a") goodEnv

/-- Cycle 2 of the marker trace "a","a","b","b". -/
def cycle2 : CycleResult := auto_update_cycle startState (some "a") goodEnv

/-- Cycle 3 of the marker trace "a","a","b","b". -/
def cycle3 : CycleResult := auto_update_cycle cycle2.state (some "b") goodEnv

/-- Cycle 4 of the marker trace "a","a","b","b". -/
def cycle4 : CycleResult := auto_update_cycle cycle3.state (some "b") goodEnv

/-- C1 (amended): a refresh cycle fetches the dataset iff the fetched marker
is truthy and differs from the last-applied one, independently of whether the
cache is empty; the bootstrap dataset fetch happens unconditionally once at
start-up (`on_ready`). For markers "a","a","b","b" from an empty cache with
successful fetches, start-up consuming the first marker, dataset fetches
happen on cycle 1 (start-up, unconditional) and cycle 3 only. -/
theorem refresh_fetch_decision (st : BotState) (commit : Option String)
    (env : Nat → AttemptResult) :
    ((auto_update_cycle st commit env).didFetchDataset
        = (pyTruthy commit && commit != st.last_commit_hash))
    ∧ on_ready st commit env = ⟨(fetch_data st.cache env 3).1, commit⟩
    ∧ (cycle2.didFetchDataset = false ∧ cycle3.didFetchDataset = true
        ∧ cycle4.didFetchDataset = false) := by
  refine ⟨?_, rfl, rfl, rfl, rfl⟩
  by_cases hcond : (pyTruthy commit && commit != st.last_commit_hash) = true
  · rw [auto_update_cycle_eq, if_pos hcond, hcond]
    split <;> rfl
  · rw [auto_update_cycle_eq, if_neg hcond]
    have hf : (pyTruthy commit && commit != st.last_commit_hash) = false := by
      simpa using hcond
    rw [hf]

/-- C1 witness: cycle 2 of the trace performs no dataset fetch. -/
theorem refresh_fetch_decision_witness : cycle2.didFetchDataset = false :=
  (refresh_fetch_decision ⟨emptySnapshot, none⟩ (some "a") goodEnv).2.2.1

/-- C2 counterexample: under `PRODUCTS` the line `A|B|C|D|E|F` (five
separators) yields stock "E", the fifth field, not the remainder "E|F" of the
line after the fourth separator as the claim states. -/
theorem products_split_counterexample :
    (parse_data_file "[PRODUCTS]\nA|B|C|D|E|F").products.map (fun p => p.stock)
        = ["E"]
    ∧ ("E" : String) ≠ "E|F" := ⟨rfl, by decide⟩

/-- C2 (amended): under `PRODUCTS` a line containing `|` is split at every
`|` into trimmed fields; when at least five result, the first five become
(category, name, price, description, stock) — so a line with more than four
separators gets the fifth trimmed field as stock, later fields being
discarded — and when fewer than five result no record is produced and the
parse state is unchanged. -/
theorem products_line_split (st : ParseState) (l c n pr d s : String)
    (hsec : st.currentSection = some "PRODUCTS")
    (hblank : (pyStrip l).data.isEmpty = false)
    (hcomment : startsWithCh (pyStrip l) '#' = false)
    (hheader : (startsWithCh (pyStrip l) '[' && endsWithCh (pyStrip l) ']') = false)
    (hpipe : hasPipe (pyStrip l) = true) :
    (((pySplitPipe (pyStrip l)).map pyStrip).take 5 = [c, n, pr, d, s]
        → processLine st l
            = { st with
                products := st.products ++ [⟨c, n, pr, d, s⟩]
                categories := addToCategories st.categories c ⟨c, n, pr, d, s⟩ })
    ∧ (((pySplitPipe (pyStrip l)).map pyStrip).length < 5
        → processLine st l = st) := by
  have hk : lineKind l = .dataLine (pyStrip l) := by
    simp [lineKind, hblank, hcomment, hheader]
  have hfaq : (st.currentSection == some "FAQ") = false := by
    rw [hsec]
    decide
  have hprod : (st.currentSection == some "PRODUCTS") = true := by
    rw [hsec]
    decide
  have hcl : classifyLine st.currentSection l
      = match (pySplitPipe (pyStrip l)).map pyStrip with
        | c' :: n' :: pr' :: d' :: s' :: _ =>
            LineAction.addProduct ⟨c', n', pr', d', s'⟩
        | _ => LineAction.skip := by
    simp [classifyLine, hk, hfaq, hprod, hpipe]
  constructor
  · intro h5
    obtain ⟨rest, hxs⟩ := take_five_eq h5
    rw [processLine_spec, hcl, hxs]
  · intro hlen
    rw [processLine_spec, hcl]
    rcases hxs : (pySplitPipe (pyStrip l)).map pyStrip with
      _ | ⟨x1, _ | ⟨x2, _ | ⟨x3, _ | ⟨x4, _ | ⟨x5, rest⟩⟩⟩⟩⟩
    · rfl
    · rfl
    · rfl
    · rfl
    · rfl
    · rw [hxs] at hlen
      simp only [List.length_cons] at hlen
      omega

/-- C2 witness: the line `A|B|C|D|E|F` under `PRODUCTS` produces the record
with stock "E". -/
theorem products_line_split_witness :
    processLine ⟨[], [], [], some "PRODUCTS"⟩ "A|B|C|D|E|F"
      = ⟨[⟨"A", "B", "C", "D", "E"⟩], [],
         [("A", [⟨"A", "B", "C", "D", "E"⟩])], some "PRODUCTS"⟩ := by
  have h := (products_line_split ⟨[], [], [], some "PRODUCTS"⟩ "A|B|C|D|E|F"
    "A" "B" "C" "D" "E" rfl (by decide) (by decide) (by decide) (by decide)).1
    (by decide)
  rw [h]
  rfl

end Luxury
